import Mathlib

/-!
Verification of the legal-intake chatbot core: the phase-transition rule
engine (`py_consumer/logic/phase_utils.py`), the slot extractor
(`py_consumer/logic/slot_utils.py`) and the retrieval pipeline
(`rag/rag_deepseek.py`), as a shallow embedding in Lean.

Conventions of the embedding:
* Python strings are Lean `String`s; character-level work happens on
  `String.data` (`List Char`).  `\w` of Python's `re` is modelled as ASCII
  alphanumeric or underscore (all inputs of interest are ASCII).
* Python floats (similarity scores, thresholds, timestamps) are modelled as
  `ℚ`: only order comparisons and exact small arithmetic occur in this code.
* Python dict lookups that may raise `KeyError` are modelled with `Option`
  fields; `dict.get(k, default)` becomes `Option.getD`.
* Code that can raise is modelled in `Except String`; a `try/except` that
  degrades to a default becomes a `match` on the `Except` value.
* External collaborators (the sentence-transformer `encode`, faiss L2
  normalisation, the rows returned by the database) are inputs of the
  corresponding functions, since the source treats them as opaque services.
-/

/-! ## Character and string utilities (models of the Python primitives used) -/

/-- Model of `re`'s `\w` on ASCII input: alphanumeric or underscore. -/
def isWordC (c : Char) : Bool :=
  c.isAlphanum || c == '_'

/-- Character class `[A-Z_]` of the phase-marker regexes. -/
def isPhaseChar (c : Char) : Bool :=
  ('A' ≤ c && c ≤ 'Z') || c == '_'

/-- `stripPre pre s` removes the literal prefix `pre` from `s`
(`none` when `s` does not start with `pre`). -/
def stripPre : List Char → List Char → Option (List Char)
  | [], s => some s
  | _ :: _, [] => none
  | a :: as, b :: bs => if a == b then stripPre as bs else none

/-- Substring containment on char lists: model of Python's `needle in hay`. -/
def hasSub (needle : List Char) : List Char → Bool
  | [] => (stripPre needle []).isSome
  | c :: rest => (stripPre needle (c :: rest)).isSome || hasSub needle rest

/-- Model of Python `needle in hay` on strings. -/
def hasSubStr (needle hay : String) : Bool :=
  hasSub needle.data hay.data

/-- Model of Python `str.lower()` (ASCII). -/
def lowerStr (s : String) : String :=
  String.mk (s.data.map Char.toLower)

/-- Model of Python `str.split(sep)` for a one-character separator:
keeps empty pieces, like Python. -/
def splitChar (sep : Char) : List Char → List (List Char)
  | [] => [[]]
  | a :: rest =>
    let r := splitChar sep rest
    if a == sep then [] :: r
    else
      match r with
      | h :: t => (a :: h) :: t
      | [] => [[a]]

/-- Model of Python `str.strip()` (no argument: strips whitespace). -/
def trimChars (l : List Char) : List Char :=
  ((l.dropWhile Char.isWhitespace).reverse.dropWhile Char.isWhitespace).reverse

/-- Model of Python `str.strip()` on `String`. -/
def trimStr (s : String) : String :=
  String.mk (trimChars s.data)

/-- Model of Python `str.split()` (no argument): split on whitespace runs,
dropping empty pieces. -/
def wordsOf (l : List Char) : List (List Char) :=
  (splitChar ' ' (l.map (fun c => if c.isWhitespace then ' ' else c))).filter
    (fun w => !w.isEmpty)

/-! ## Slot extractor (`slot_utils.py`, class `SlotExtractor`)

`EMAIL_RE = re.compile(r"[\w.-]+@[\w.-]+")`,
`PHONE_RE = re.compile(r"(\+?\d[\d\s-]{7,}\d)")`,
`DATE_RE = re.compile(r"\b(\d{4}-\d{1,2}-\d{1,2})\b")`, each used with
`.search` (leftmost match).  The three patterns are simple enough that
greedy matching with the documented backtracking is modelled exactly. -/

/-- Character class `[\w.-]` of `EMAIL_RE`. -/
def emailClass (c : Char) : Bool :=
  isWordC c || c == '.' || c == '-'

/-- Try `EMAIL_RE` anchored at the start of `s`.  Since `@` is not in the
class `[\w.-]`, the greedy runs never backtrack. -/
def matchEmailAt (s : List Char) : Option (List Char) :=
  let run1 := s.takeWhile emailClass
  let rest := s.dropWhile emailClass
  if run1.isEmpty then none
  else
    match rest with
    | '@' :: r2 =>
      let run2 := r2.takeWhile emailClass
      if run2.isEmpty then none else some (run1 ++ '@' :: run2)
    | _ => none

/-- `EMAIL_RE.search`: leftmost match. -/
def scanEmail : List Char → Option (List Char)
  | [] => none
  | c :: rest =>
    match matchEmailAt (c :: rest) with
    | some m => some m
    | none => scanEmail rest

/-- Character class `[\d\s-]` of `PHONE_RE`. -/
def phoneClass (c : Char) : Bool :=
  c.isDigit || c.isWhitespace || c == '-'

/-- Greedy `[\d\s-]{7,}` followed by `\d`: try the run length `n`, then
`n-1`, ..., stopping below the minimum 7 (digits are in the class, so this
backtracking is observable). -/
def phoneTry (d : Char) (rest : List Char) : Nat → Option (List Char)
  | 0 => none
  | Nat.succ k =>
    if Nat.succ k < 7 then none
    else
      match (rest.drop (Nat.succ k)).head? with
      | some e =>
        if e.isDigit then some (d :: (rest.take (Nat.succ k) ++ [e]))
        else phoneTry d rest k
      | none => phoneTry d rest k

/-- `\d[\d\s-]{7,}\d` anchored at the start of `s`. -/
def matchPhoneCore (s : List Char) : Option (List Char) :=
  match s with
  | [] => none
  | d :: rest =>
    if d.isDigit then phoneTry d rest (rest.takeWhile phoneClass).length
    else none

/-- `PHONE_RE` anchored at the start of `s`: optional `+`, then the core.
A failing `+` branch cannot be rescued by the empty alternative of `\+?`,
because `\d` never matches `'+'`. -/
def matchPhoneAt (s : List Char) : Option (List Char) :=
  match s with
  | '+' :: rest => (matchPhoneCore rest).map (fun m => '+' :: m)
  | _ => matchPhoneCore s

/-- `PHONE_RE.search`: leftmost match. -/
def scanPhone : List Char → Option (List Char)
  | [] => none
  | c :: rest =>
    match matchPhoneAt (c :: rest) with
    | some m => some m
    | none => scanPhone rest

/-- Take exactly `n` digits from the front. -/
def takeExactDigits : Nat → List Char → Option (List Char × List Char)
  | 0, s => some ([], s)
  | Nat.succ _, [] => none
  | Nat.succ n, c :: rest =>
    if c.isDigit then
      (takeExactDigits n rest).map (fun p => (c :: p.1, p.2))
    else none

/-- Expect a literal character at the front. -/
def expectChar (c : Char) : List Char → Option (List Char)
  | [] => none
  | b :: rest => if b == c then some rest else none

/-- `\b` after the match: end of input or a non-word character. -/
def boundaryAfter : List Char → Bool
  | [] => true
  | c :: _ => !isWordC c

/-- `\d{1,2}` (greedy, so two digits tried first) followed by the trailing
`\b` of `DATE_RE`. -/
def dayPart (s : List Char) : Option (List Char × List Char) :=
  match takeExactDigits 2 s with
  | some (d2, r) =>
    if boundaryAfter r then some (d2, r)
    else
      match takeExactDigits 1 s with
      | some (d1, r1) => if boundaryAfter r1 then some (d1, r1) else none
      | none => none
  | none =>
    match takeExactDigits 1 s with
    | some (d1, r1) => if boundaryAfter r1 then some (d1, r1) else none
    | none => none

/-- `\d{1,2}-\d{1,2}\b` (month, separator, day) with greedy backtracking on
the month width. -/
def monthThen (s : List Char) : Option (List Char × List Char) :=
  let try2 :=
    match takeExactDigits 2 s with
    | some (m, r) =>
      match expectChar '-' r with
      | some r1 =>
        match dayPart r1 with
        | some (d, _) => some (m, d)
        | none => none
      | none => none
    | none => none
  match try2 with
  | some x => some x
  | none =>
    match takeExactDigits 1 s with
    | some (m, r) =>
      match expectChar '-' r with
      | some r1 =>
        match dayPart r1 with
        | some (d, _) => some (m, d)
        | none => none
      | none => none
    | none => none

/-- `\d{4}-\d{1,2}-\d{1,2}\b` anchored at the start of `s`; returns the
captured group. -/
def matchDateAt (s : List Char) : Option (List Char) :=
  match takeExactDigits 4 s with
  | some (y, r) =>
    match expectChar '-' r with
    | some r1 =>
      match monthThen r1 with
      | some (m, d) => some (y ++ '-' :: m ++ '-' :: d)
      | none => none
    | none => none
  | none => none

/-- `DATE_RE.search`: leftmost match; `prev` is the character before the
current position, for the leading `\b` (the first matched character is a
digit, hence a word character, so the boundary holds exactly when the
previous character is absent or not a word character). -/
def scanDate (prev : Option Char) : List Char → Option (List Char)
  | [] => none
  | c :: rest =>
    let bOk := match prev with
      | none => true
      | some p => !isWordC p
    match (if bOk then matchDateAt (c :: rest) else none) with
    | some d => some d
    | none => scanDate (some c) rest

/-- Values stored in the extracted-slot dictionary (and in the slot mapping
consumed by the phase engine), with Python truthiness. -/
inductive PVal where
  | str (s : String)
  | list (l : List String)
  | int (n : Int)
  | none
deriving DecidableEq, Repr

/-- Python truthiness of a slot value. -/
def PVal.truthy : PVal → Bool
  | .str s => decide (s.data ≠ [])
  | .list l => decide (l ≠ [])
  | .int n => decide (n ≠ 0)
  | .none => false

/-- `SlotExtractor.extract_slots`: builds a fresh dict per message; `email`
and `phone` from the first regex match, and the `dates` list slot seeded by
`slots.setdefault('dates', []).append(match.group(1))` on the single
`DATE_RE.search` result.  (The `current_phase` argument is unused by the
source.) -/
def extract_slots (message : String) : List (String × PVal) :=
  let slots : List (String × PVal) := []
  let slots :=
    match scanEmail message.data with
    | some m => slots ++ [("email", PVal.str (String.mk m))]
    | none => slots
  let slots :=
    match scanPhone message.data with
    | some m => slots ++ [("phone", PVal.str (String.mk m))]
    | none => slots
  let slots :=
    match scanDate Option.none message.data with
    | some m => slots ++ [("dates", PVal.list [String.mk m])]
    | none => slots
  slots

/-! ## Phase engine (`phase_utils.py`, class `PhaseManager`)

The database rows behind `get_branch_flow_rules`, the wall clock
(`datetime.now()`) and the workflow configuration are inputs of the model.
Timestamps are rationals in seconds. -/

/-- A context message, as the dict rows consumed by the phase manager.
`Option` fields model possibly-missing dict keys (access raises
`KeyError`). -/
structure Msg where
  sender_type : Option String
  created_at : Option ℚ
deriving DecidableEq, Repr

/-- `condition_data` of a branch rule: an opaque JSON mapping, read only
through `.get(key, default)`, hence `Option` fields with defaults applied
at the use sites. -/
structure CondData where
  min_messages : Option Int := Option.none
  required_fields : Option (List String) := Option.none
  confidence_threshold : Option ℚ := Option.none
  interest_indicators : Option (List String) := Option.none
  min_count : Option Int := Option.none
  max_count : Option Int := Option.none
  min_minutes : Option ℚ := Option.none
  keywords : Option (List String) := Option.none
  required_slots : Option (List String) := Option.none
deriving DecidableEq, Repr

/-- A branch-flow rule row (`to_phase`, `condition_type`, `condition_data`,
`priority`).  `rule['to_phase']` and `rule['condition_type']` are plain
dict accesses, so `Option` models a missing key. -/
structure Rule where
  to_phase : Option String
  condition_type : Option String
  condition_data : CondData := {}
  priority : Int := 0
deriving DecidableEq, Repr

/-- `self.workflow_config`, read through `.get(key, default)`. -/
structure WorkflowConfig where
  auto_transition : Option Bool := Option.none
  phase_timeout : Option ℚ := Option.none
deriving DecidableEq, Repr

/-- Lookup of a slot value (`name in slots and slots[name]` truthiness
combination used by the checks). -/
def slotTruthy (slots : List (String × PVal)) (name : String) : Bool :=
  match List.lookup name slots with
  | some v => v.truthy
  | Option.none => false

/-- Count of `[msg for msg in context if msg['sender_type'] == 'user']`;
errors at the first message whose dict lacks `sender_type`. -/
def user_message_count : List Msg → Except String Nat
  | [] => .ok 0
  | m :: rest =>
    match m.sender_type with
    | Option.none => .error "KeyError: sender_type"
    | some s => do
      let n ← user_message_count rest
      pure (if s = "user" then n + 1 else n)

/-- `context[-1]` of a nonempty list. -/
def lastMsg (m : Msg) : List Msg → Msg
  | [] => m
  | x :: rest => lastMsg x rest

/-- `PhaseManager._check_sufficient_info`. -/
def check_sufficient_info (cd : CondData) (slots : List (String × PVal))
    (context : List Msg) : Except String Bool := do
  let min_messages := cd.min_messages.getD 3
  let required_fields := cd.required_fields.getD []
  let n ← user_message_count context
  if (n : Int) < min_messages then
    pure false
  else
    pure (required_fields.all (fun f => slotTruthy slots f))

/-- The fixed six analysis indicators of
`PhaseManager._check_analysis_complete`. -/
def analysis_indicators : List String :=
  ["analysis complete", "assessment shows", "legal assessment",
   "case strength", "recommendation", "next steps"]

/-- `PhaseManager._check_analysis_complete`:
`confidence = min(indicator_count / len(indicators), 1.0)`, pass iff
`confidence >= confidence_threshold` (default 0.8). -/
def check_analysis_complete (cd : CondData) (ai_response : String) : Bool :=
  let confidence_threshold := cd.confidence_threshold.getD (8 / 10 : ℚ)
  let response_lower := lowerStr ai_response
  let indicator_count :=
    (analysis_indicators.filter (fun ind => hasSubStr ind response_lower)).length
  let confidence :=
    min ((indicator_count : ℚ) / (analysis_indicators.length : ℚ)) 1
  decide (confidence_threshold ≤ confidence)

/-- `PhaseManager._check_client_interest` (the `context` argument is unused
by the source body). -/
def check_client_interest (cd : CondData) (message : String) : Bool :=
  let interest_indicators := cd.interest_indicators.getD
    ["pricing", "cost", "fee", "timeline", "next steps", "proceed",
     "continue", "hire"]
  let message_lower := lowerStr message
  interest_indicators.any (fun ind => hasSubStr ind message_lower)

/-- `PhaseManager._check_message_count`: inclusive bounds, defaults 5/50. -/
def check_message_count (cd : CondData) (context : List Msg) :
    Except String Bool := do
  let min_count := cd.min_count.getD 5
  let max_count := cd.max_count.getD 50
  let n ← user_message_count context
  pure (decide (min_count ≤ (n : Int)) && decide ((n : Int) ≤ max_count))

/-- `PhaseManager._check_time_elapsed`: elapsed minutes between first and
last context message, default threshold 10; `False` on empty context;
`KeyError` when a `created_at` is missing. -/
def check_time_elapsed (cd : CondData) (context : List Msg) :
    Except String Bool :=
  let min_minutes := cd.min_minutes.getD 10
  match context with
  | [] => .ok false
  | f :: rest =>
    let l := lastMsg f rest
    match f.created_at, l.created_at with
    | some t0, some t1 => .ok (decide (min_minutes ≤ (t1 - t0) / 60))
    | _, _ => .error "KeyError: created_at"

/-- `PhaseManager._check_keyword_match`. -/
def check_keyword_match (cd : CondData) (message : String) : Bool :=
  let keywords := cd.keywords.getD []
  let message_lower := lowerStr message
  keywords.any (fun k => hasSubStr (lowerStr k) message_lower)

/-- `PhaseManager._check_slot_filled`. -/
def check_slot_filled (cd : CondData) (slots : List (String × PVal)) : Bool :=
  let required_slots := cd.required_slots.getD []
  required_slots.all (fun name => slotTruthy slots name)

/-- Body of `PhaseManager._evaluate_condition` before its `except` clause:
the `condition_type` dispatch (an `if/elif` chain in spirit), with unknown
types mapped to `False`. -/
def evaluate_condition_body (rule : Rule) (message ai_response : String)
    (slots : List (String × PVal)) (context : List Msg) :
    Except String Bool :=
  match rule.condition_type with
  | Option.none => .error "KeyError: condition_type"
  | some ct =>
    let cd := rule.condition_data
    if ct = "sufficient_info" then check_sufficient_info cd slots context
    else if ct = "analysis_complete" then
      .ok (check_analysis_complete cd ai_response)
    else if ct = "client_interest" then .ok (check_client_interest cd message)
    else if ct = "message_count" then check_message_count cd context
    else if ct = "time_elapsed" then check_time_elapsed cd context
    else if ct = "keyword_match" then .ok (check_keyword_match cd message)
    else if ct = "slot_filled" then .ok (check_slot_filled cd slots)
    else .ok false

/-- `PhaseManager._evaluate_condition`: any exception in the body is caught
and the rule treated as not firing. -/
def evaluate_condition (rule : Rule) (message ai_response : String)
    (slots : List (String × PVal)) (context : List Msg) : Bool :=
  match evaluate_condition_body rule message ai_response slots context with
  | .ok b => b
  | .error _ => false

/-- Try one marker pattern anchored at the start of `s`: the literal `pre`,
a nonempty greedy `[A-Z_]+` capture, then the literal `post`.  For the
three patterns used, `post` is empty or starts with a character outside
`[A-Z_]`, so the greedy run never backtracks. -/
def matchPatAt (pre post s : List Char) : Option (List Char) :=
  match stripPre pre s with
  | Option.none => Option.none
  | some rest =>
    let run := rest.takeWhile isPhaseChar
    let rest2 := rest.dropWhile isPhaseChar
    if run.isEmpty then Option.none
    else
      match stripPre post rest2 with
      | some _ => some run
      | Option.none => Option.none

/-- `re.search` for one marker pattern: leftmost match, returning the
captured group. -/
def scanPat (pre post : List Char) : List Char → Option (List Char)
  | [] => matchPatAt pre post []
  | c :: rest =>
    match matchPatAt pre post (c :: rest) with
    | some g => some g
    | Option.none => scanPat pre post rest

/-- `PhaseManager._extract_phase_from_response`: the three patterns
`\[NEXT_PHASE:([A-Z_]+)\]`, `<PHASE_TRANSITION>([A-Z_]+)</PHASE_TRANSITION>`
and `TRANSITION_TO:([A-Z_]+)` are tried in order over the whole response. -/
def extract_phase_from_response (ai_response : String) : Option String :=
  match scanPat ("[NEXT_PHASE:".data) ("]".data) ai_response.data with
  | some g => some (String.mk g)
  | Option.none =>
    match scanPat ("<PHASE_TRANSITION>".data) ("</PHASE_TRANSITION>".data)
        ai_response.data with
    | some g => some (String.mk g)
    | Option.none =>
      match scanPat ("TRANSITION_TO:".data) [] ai_response.data with
      | some g => some (String.mk g)
      | Option.none => Option.none

/-- The fixed fallback sequence of `PhaseManager._get_next_sequential_phase`. -/
def phase_sequence : List String :=
  ["INFO_COLLECTION", "CASE_ANALYSIS", "PRODUCT_RECOMMENDATION",
   "SALES_CONVERSION"]

/-- `PhaseManager._get_next_sequential_phase`: successor in the fixed
sequence; `None` at the last phase or when the phase is not in the
sequence (`ValueError` caught in the source). -/
def get_next_sequential_phase (current_phase : String) : Option String :=
  match phase_sequence.indexOf? current_phase with
  | some i =>
    if i < phase_sequence.length - 1 then phase_sequence.get? (i + 1)
    else Option.none
  | Option.none => Option.none

/-- `PhaseManager._should_auto_transition`: disabled by configuration, else
compare the minutes since the last context message against the timeout
(default 30); `KeyError` when the last message lacks `created_at`. -/
def should_auto_transition (cfg : WorkflowConfig) (now : ℚ)
    (context : List Msg) : Except String Bool :=
  if cfg.auto_transition.getD true = false then .ok false
  else
    let timeout_minutes := cfg.phase_timeout.getD 30
    match context with
    | [] => .ok false
    | f :: rest =>
      let l := lastMsg f rest
      match l.created_at with
      | some t => .ok (decide (timeout_minutes < (now - t) / 60))
      | Option.none => .error "KeyError: created_at"

/-- The rule-evaluation loop of `PhaseManager.determine_next_phase` (lines
59-72): first firing rule wins (`rule['to_phase']` may raise); when no rule
fires, the auto-transition fallback runs, and otherwise the current phase
is kept. -/
def rule_loop (cfg : WorkflowConfig) (now : ℚ)
    (current_phase message ai_response : String)
    (slots : List (String × PVal)) (context : List Msg) :
    List Rule → Except String String
  | [] => do
    let auto ← should_auto_transition cfg now context
    if auto then
      match get_next_sequential_phase current_phase with
      | some next_phase => pure next_phase
      | Option.none => pure current_phase
    else
      pure current_phase
  | rule :: rest =>
    if evaluate_condition rule message ai_response slots context then
      match rule.to_phase with
      | some t => .ok t
      | Option.none => .error "KeyError: to_phase"
    else
      rule_loop cfg now current_phase message ai_response slots context rest

/-- Body of `PhaseManager.determine_next_phase` before its `except` clause.
`branch_rules` is the list returned by the database for the current phase. -/
def determine_next_phase_body (cfg : WorkflowConfig) (now : ℚ)
    (current_phase message ai_response : String)
    (slots : List (String × PVal)) (context : List Msg)
    (branch_rules : List Rule) : Except String String :=
  match extract_phase_from_response ai_response with
  | some explicit_phase => .ok explicit_phase
  | Option.none =>
    rule_loop cfg now current_phase message ai_response slots context
      branch_rules

/-- `PhaseManager.determine_next_phase`: any exception degrades to the
current phase. -/
def determine_next_phase (cfg : WorkflowConfig) (now : ℚ)
    (current_phase message ai_response : String)
    (slots : List (String × PVal)) (context : List Msg)
    (branch_rules : List Rule) : String :=
  match determine_next_phase_body cfg now current_phase message ai_response
      slots context branch_rules with
  | .ok p => p
  | .error _ => current_phase

instance : DecidableRel (fun a b : Rule => b.priority ≤ a.priority) :=
  fun a b => Int.decLe b.priority a.priority

instance : IsTotal Rule (fun a b => b.priority ≤ a.priority) :=
  ⟨fun a b => (le_total b.priority a.priority)⟩

instance : IsTrans Rule (fun a b => b.priority ≤ a.priority) :=
  ⟨fun _ _ _ hab hbc => le_trans hbc hab⟩

/-- `DatabaseManager.get_branch_flow_rules`: the active rows for the phase,
`ORDER BY priority DESC`, modelled as a stable descending sort of the
database rows. -/
def get_branch_flow_rules (rows : List Rule) : List Rule :=
  List.insertionSort (fun a b => b.priority ≤ a.priority) rows

/-! ## Retrieval pipeline (`rag_deepseek.py`, class `DeepSeekRAGSystem`) -/

/-- `DeepSeekRAGSystem._chunk_document`: sentence split on `'.'`, skipping
blank sentences; a sentence that would push the buffer past `chunk_size`
characters flushes the buffer, seeding the next one with the trailing
`chunk_overlap` words when overlap is positive; the final buffer is always
flushed. -/
def chunk_document (chunk_size chunk_overlap : Int) (content : String) :
    List String :=
  let sentences := (splitChar '.' content.data).map String.mk
  let step := fun (st : List String × String) (sent : String) =>
    let chunks := st.1
    let current_chunk := st.2
    let s := trimStr sent
    if s = "" then st
    else if (current_chunk.data.length : Int) + s.data.length + 1 > chunk_size
    then
      if current_chunk ≠ "" then
        let chunks := chunks ++ [trimStr current_chunk]
        if chunk_overlap > 0 then
          let words := wordsOf current_chunk.data
          let overlap_words := words.drop (words.length - chunk_overlap.toNat)
          (chunks, String.mk (List.intercalate [' '] overlap_words ++
            ' ' :: s.data))
        else (chunks, s)
      else (chunks, s)
    else
      (chunks, if current_chunk ≠ "" then current_chunk ++ " " ++ s else s)
  let fin := sentences.foldl step ([], "")
  if fin.2 ≠ "" then fin.1 ++ [trimStr fin.2] else fin.1

/-- A source document row of `legalbot.knowledge_base`. -/
structure Doc where
  id : String
  title : String
  content : String
  document_type : String
  category : String
  metadata : List (String × String) := []
deriving DecidableEq, Repr

/-- A processed chunk entry of the parallel `self.documents` list. -/
structure ProcDoc where
  id : String
  original_id : String
  title : String
  content : String
  document_type : String
  category : String
  metadata : List (String × String) := []
deriving DecidableEq, Repr

/-- The processed entry built for chunk number `i` of `doc`. -/
def mkProcDoc (doc : Doc) (i : Nat) (chunk : String) : ProcDoc :=
  { id := doc.id ++ "_" ++ toString i
    original_id := doc.id
    title := doc.title
    content := chunk
    document_type := doc.document_type
    category := doc.category
    metadata := doc.metadata }

/-- The faiss `IndexFlatIP`: its dimensionality and its stored vectors in
insertion order. -/
structure FaissIdx where
  dim : Nat
  vecs : List (List ℚ)
deriving DecidableEq, Repr

/-- The RAG system state relevant to retrieval: `self.faiss_index`
(`none` before initialisation) and the parallel `self.documents` list. -/
structure RagState where
  faiss_index : Option FaissIdx
  documents : List ProcDoc
deriving DecidableEq, Repr

/-- One step of the inner chunk loop of `_create_new_index`: append the
processed doc and its embedding to the two parallel accumulators. -/
def chunkAccum (encode : String → List ℚ) (doc : Doc)
    (acc : List ProcDoc × List (List ℚ)) (ic : Nat × String) :
    List ProcDoc × List (List ℚ) :=
  (acc.1 ++ [mkProcDoc doc ic.1 ic.2], acc.2 ++ [encode ic.2])

/-- The outer document loop of `_create_new_index`: chunk one document and
fold its enumerated chunks into the accumulators. -/
def docAccum (encode : String → List ℚ) (chunk_size chunk_overlap : Int)
    (acc : List ProcDoc × List (List ℚ)) (doc : Doc) :
    List ProcDoc × List (List ℚ) :=
  ((chunk_document chunk_size chunk_overlap doc.content).enum).foldl
    (chunkAccum encode doc) acc

/-- `DeepSeekRAGSystem._create_new_index`: no documents (or no chunks at
all) yields an empty index of the model's embedding dimension `embDim`;
otherwise the embeddings are L2-normalised row-wise (`normalizeRow`, an
opaque collaborator) and stored together with the parallel processed-chunk
list; the index dimensionality is the row width of the embedding array. -/
def create_new_index (encode : String → List ℚ)
    (normalizeRow : List ℚ → List ℚ) (embDim : Nat)
    (chunk_size chunk_overlap : Int) (docs : List Doc) : RagState :=
  if docs.isEmpty then { faiss_index := some ⟨embDim, []⟩, documents := [] }
  else
    let pr := docs.foldl (docAccum encode chunk_size chunk_overlap) ([], [])
    if pr.2.isEmpty then
      { faiss_index := some ⟨embDim, []⟩, documents := [] }
    else
      let normed := pr.2.map normalizeRow
      { faiss_index := some ⟨(normed.headD []).length, normed⟩
        documents := pr.1 }

/-- `DeepSeekRAGSystem._load_or_create_index`: when both persisted files
exist and deserialise, the loaded pair is installed as-is (no consistency
check); otherwise a fresh index is built from the source documents. -/
def load_or_create_index (encode : String → List ℚ)
    (normalizeRow : List ℚ → List ℚ) (embDim : Nat)
    (chunk_size chunk_overlap : Int)
    (stored : Option (FaissIdx × List ProcDoc)) (docs : List Doc) :
    RagState :=
  match stored with
  | some (fi, pdocs) => { faiss_index := some fi, documents := pdocs }
  | Option.none =>
    create_new_index encode normalizeRow embDim chunk_size chunk_overlap docs

/-- Python list indexing `l[i]` with a possibly negative index (numpy's
`int64` indices from faiss): out-of-range access is `none` (`IndexError`). -/
def pyGet (l : List α) (i : Int) : Option α :=
  if 0 ≤ i then
    (if i < (l.length : Int) then l.get? i.toNat else Option.none)
  else
    (if -(l.length : Int) ≤ i then l.get? ((l.length : Int) + i).toNat
     else Option.none)

/-- The result loop of `DeepSeekRAGSystem.search_documents` over
`zip(scores[0], indices[0])`: keep a hit when its score reaches the
threshold and its index is below `len(self.documents)`; the Python list
access itself may still raise for an index below `-len` (caught by the
surrounding `except`). -/
def search_loop (documents : List ProcDoc) (threshold : ℚ) :
    List (ℚ × Int) → List (ProcDoc × ℚ) → Except String (List (ProcDoc × ℚ))
  | [], results => .ok results
  | (score, idx) :: rest, results =>
    if threshold ≤ score ∧ idx < (documents.length : Int) then
      match pyGet documents idx with
      | some doc =>
        search_loop documents threshold rest (results ++ [(doc, score)])
      | Option.none => .error "IndexError"
    else search_loop documents threshold rest results

/-- `DeepSeekRAGSystem.search_documents`: empty result when the index is
uninitialised or the chunk list is empty; otherwise the hit list returned
by `faiss_index.search(query_embedding, top_k)` — `hits`, an input of the
model since faiss is an opaque collaborator — is filtered by threshold and
bounds; any exception degrades to an empty result.  A result pairs the
copied chunk entry with its `similarity_score`. -/
def search_documents (st : RagState) (hits : List (ℚ × Int))
    (threshold : ℚ) : List (ProcDoc × ℚ) :=
  if st.faiss_index.isNone || st.documents.isEmpty then []
  else
    match search_loop st.documents threshold hits [] with
    | .ok results => results
    | .error _ => []

/-! ## Shared concrete fixtures used by witnesses and counterexamples -/

/-- An empty workflow configuration (all defaults apply). -/
def cfg0 : WorkflowConfig := {}

/-- The priority-10 `slot_filled(email)` rule of the spec's priority
scenario. -/
def rule10 : Rule :=
  { to_phase := some "CASE_ANALYSIS", condition_type := some "slot_filled",
    condition_data := { required_slots := some ["email"] }, priority := 10 }

/-- The priority-5 `message_count(min=1, max=100)` rule of the spec's
priority scenario. -/
def rule5 : Rule :=
  { to_phase := some "OTHER", condition_type := some "message_count",
    condition_data := { min_count := some 1, max_count := some 100 },
    priority := 5 }

/-- Slot mapping `{email: "a@b.com"}`. -/
def slots0 : List (String × PVal) := [("email", PVal.str "a@b.com")]

/-- A context with a single user message. -/
def ctx0 : List Msg := [{ sender_type := some "user", created_at := some 0 }]

/-- A rule whose dict lacks `to_phase` and whose condition (no required
slots) always fires: evaluating it reaches `rule['to_phase']` and raises. -/
def badRule : Rule :=
  { to_phase := Option.none, condition_type := some "slot_filled" }

/-- A rule with a condition type outside the seven dispatched kinds. -/
def bogusRule : Rule :=
  { to_phase := some "X", condition_type := some "bogus" }

/-- A sample processed chunk entry. -/
def pd0 : ProcDoc :=
  { id := "d_0", original_id := "d", title := "T", content := "body",
    document_type := "legal", category := "general" }

/-- A one-chunk retrieval state. -/
def st1 : RagState :=
  { faiss_index := some ⟨2, [[1, 0]]⟩, documents := [pd0] }

/-! ## Helper lemmas: the rule loop and the marker scanner -/

/-- Rules whose conditions evaluate false are skipped by the loop. -/
theorem ruleLoop_append_skipped (cfg : WorkflowConfig) (now : ℚ)
    (current_phase message ai_response : String)
    (slots : List (String × PVal)) (context : List Msg) :
    ∀ (pre rest : List Rule),
      (∀ r' ∈ pre,
        evaluate_condition r' message ai_response slots context = false) →
      rule_loop cfg now current_phase message ai_response slots context
        (pre ++ rest) =
      rule_loop cfg now current_phase message ai_response slots context
        rest := by
  intro pre
  induction pre with
  | nil => intro rest _; rfl
  | cons p pre' ih =>
    intro rest h
    have hp : evaluate_condition p message ai_response slots context = false :=
      h p (List.mem_cons_self p pre')
    have hrec := ih rest (fun r hr => h r (List.mem_cons_of_mem p hr))
    simpa [rule_loop, hp] using hrec

/-- Removing a literal prefix that is syntactically there succeeds. -/
theorem stripPre_append (pre : List Char) :
    ∀ rest, stripPre pre (pre ++ rest) = some rest := by
  induction pre with
  | nil => intro rest; rfl
  | cons a as ih => intro rest; simp [stripPre, ih]

/-- `takeWhile`/`dropWhile` on a run of satisfying characters followed by a
failing one. -/
theorem takeWhile_dropWhile_run (p : Char → Bool) :
    ∀ (X : List Char), (∀ c ∈ X, p c = true) →
      ∀ (y : Char) (b : List Char), p y = false →
        (X ++ y :: b).takeWhile p = X ∧ (X ++ y :: b).dropWhile p = y :: b := by
  intro X
  induction X with
  | nil =>
    intro _ y b hy
    constructor <;> simp [List.takeWhile, List.dropWhile, hy]
  | cons c X' ih =>
    intro hall y b hy
    have hc : p c = true := hall c (List.mem_cons_self c X')
    have hrec := ih (fun d hd => hall d (List.mem_cons_of_mem c hd)) y b hy
    constructor <;>
      simp [List.takeWhile, List.dropWhile, hc, hrec.1, hrec.2]

/-- The first marker pattern matches at an occurrence of
`[NEXT_PHASE:X]` and the captured group is `X`. -/
theorem matchPatAt_nextphase (X b : List Char) (hne : X ≠ [])
    (hall : ∀ c ∈ X, isPhaseChar c = true) :
    matchPatAt ("[NEXT_PHASE:".data) ("]".data)
      ("[NEXT_PHASE:".data ++ (X ++ ']' :: b)) = some X := by
  have hrun := takeWhile_dropWhile_run isPhaseChar X hall ']' b (by decide)
  have hXne : X.isEmpty = false := by
    cases X with
    | nil => exact absurd rfl hne
    | cons c l => rfl
  unfold matchPatAt
  rw [stripPre_append]
  simp only [hrun.1, hrun.2, hXne]
  simp [stripPre]

/-- If the pattern matches somewhere in the string, the leftmost-match scan
finds some match. -/
theorem scanPat_of_matchAt (pre post : List Char) :
    ∀ (a t g : List Char), matchPatAt pre post t = some g →
      ∃ y, scanPat pre post (a ++ t) = some y := by
  intro a
  induction a with
  | nil =>
    intro t g h
    cases t with
    | nil => exact ⟨g, by simpa [scanPat] using h⟩
    | cons c r => exact ⟨g, by simp [scanPat, h]⟩
  | cons c a' ih =>
    intro t g h
    show ∃ y, scanPat pre post (c :: (a' ++ t)) = some y
    cases hm : matchPatAt pre post (c :: (a' ++ t)) with
    | some y => exact ⟨y, by simp [scanPat, hm]⟩
    | none =>
      obtain ⟨y, hy⟩ := ih t g h
      exact ⟨y, by simp [scanPat, hm, hy]⟩

/-! ## Claims about the phase engine -/

/-- C1 (amended): whenever the AI response contains a well-formed marker
`[NEXT_PHASE:X]` (`X` a nonempty upper-case-and-underscore token), the
first pattern's leftmost match determines a token `Y` — the token of the
first such marker, not necessarily `X` when several markers occur — and
`determine_next_phase` returns `Y` regardless of current phase, branch
rules, slots, message, and context. -/
theorem c1_marker_overrides_everything :
    ∀ (ai_response X : String) (a b : List Char),
      ai_response.data = a ++ ("[NEXT_PHASE:".data ++ (X.data ++ ']' :: b)) →
      X.data ≠ [] →
      (∀ c ∈ X.data, isPhaseChar c = true) →
      ∃ Y, extract_phase_from_response ai_response = some Y ∧
        ∀ cfg now current_phase message slots context branch_rules,
          determine_next_phase cfg now current_phase message ai_response
            slots context branch_rules = Y := by
  intro resp X a b hd hne hall
  have hm := matchPatAt_nextphase X.data b hne hall
  obtain ⟨y, hy⟩ := scanPat_of_matchAt ("[NEXT_PHASE:".data) ("]".data) a _ _ hm
  rw [← hd] at hy
  have hext : extract_phase_from_response resp = some (String.mk y) := by
    unfold extract_phase_from_response
    rw [hy]
  refine ⟨String.mk y, hext, ?_⟩
  intro cfg now current_phase message slots context branch_rules
  unfold determine_next_phase determine_next_phase_body
  rw [hext]

/-- C1 witness: a concrete response carrying a single marker. -/
theorem c1_marker_overrides_everything_witness :
    ∃ Y, extract_phase_from_response ("[NEXT_PHASE:ABC]") = some Y ∧
      ∀ cfg now current_phase message slots context branch_rules,
        determine_next_phase cfg now current_phase message
          ("[NEXT_PHASE:ABC]") slots context branch_rules = Y :=
  c1_marker_overrides_everything "[NEXT_PHASE:ABC]" "ABC" [] [] (by decide)
    (by decide) (by decide)

/-- C1 counterexample: a response containing the marker `[NEXT_PHASE:BBB]`
(in the claim's sense) for which `determine_next_phase` nevertheless
returns `"AAA"`, the token of the earlier marker — refuting the claim as
universally stated. -/
theorem c1_counterexample :
    ("[NEXT_PHASE:AAA] [NEXT_PHASE:BBB]" : String).data =
      ("[NEXT_PHASE:AAA] " : String).data ++
        ("[NEXT_PHASE:".data ++ (("BBB" : String).data ++ ']' :: [])) ∧
    ("BBB" : String).data ≠ [] ∧
    (∀ c ∈ ("BBB" : String).data, isPhaseChar c = true) ∧
    determine_next_phase cfg0 0 "P" ""
      ("[NEXT_PHASE:AAA] [NEXT_PHASE:BBB]") [] [] [] = "AAA" ∧
    ("AAA" : String) ≠ "BBB" := by
  refine ⟨by decide, by decide, by decide, by decide, by decide⟩

/-- C2: with no explicit marker in the response, the branch rules fetched
for the current phase are evaluated in descending priority order and the
target of the first rule whose condition holds is returned. -/
theorem c2_first_satisfied_rule_wins :
    ∀ (cfg : WorkflowConfig) (now : ℚ)
      (current_phase message ai_response : String)
      (slots : List (String × PVal)) (context : List Msg)
      (rows pre post : List Rule) (r : Rule) (t : String),
      extract_phase_from_response ai_response = Option.none →
      get_branch_flow_rules rows = pre ++ r :: post →
      (∀ r' ∈ pre,
        evaluate_condition r' message ai_response slots context = false) →
      evaluate_condition r message ai_response slots context = true →
      r.to_phase = some t →
      (get_branch_flow_rules rows).Pairwise
        (fun a b => b.priority ≤ a.priority) ∧
      determine_next_phase cfg now current_phase message ai_response slots
        context (get_branch_flow_rules rows) = t := by
  intro cfg now current_phase message ai_response slots context rows pre post
    r t hmark hdecomp hpre heval hto
  constructor
  · exact List.sorted_insertionSort (fun a b => b.priority ≤ a.priority) rows
  · unfold determine_next_phase determine_next_phase_body
    rw [hmark, hdecomp,
      ruleLoop_append_skipped cfg now current_phase message ai_response slots
        context pre (r :: post) hpre]
    simp [rule_loop, heval, hto]

/-- C2 witness: the spec's scenario — rules `slot_filled(email)` at
priority 10 and `message_count(1..100)` at priority 5, slots
`{email: "a@b.com"}`, one user message; both conditions hold and the
priority-10 target is returned after the database sort. -/
theorem c2_first_satisfied_rule_wins_witness :
    evaluate_condition rule5 "m" "ok" slots0 ctx0 = true ∧
    determine_next_phase cfg0 0 "INFO_COLLECTION" "m" "ok" slots0 ctx0
      (get_branch_flow_rules [rule5, rule10]) = "CASE_ANALYSIS" :=
  ⟨by decide,
    (c2_first_satisfied_rule_wins cfg0 0 "INFO_COLLECTION" "m" "ok" slots0
      ctx0 [rule5, rule10] [] [rule5] rule10 "CASE_ANALYSIS" (by decide)
      (by decide) (by decide) (by decide) (by decide)).2⟩

/-- C3: `determine_next_phase` catches any error of its body and degrades
to the current phase (and is otherwise the body's result), so phase
determination never propagates an exception. -/
theorem c3_determination_never_raises :
    ∀ (cfg : WorkflowConfig) (now : ℚ)
      (current_phase message ai_response : String)
      (slots : List (String × PVal)) (context : List Msg)
      (branch_rules : List Rule),
      (∀ e, determine_next_phase_body cfg now current_phase message
          ai_response slots context branch_rules = .error e →
        determine_next_phase cfg now current_phase message ai_response slots
          context branch_rules = current_phase) ∧
      (∀ p, determine_next_phase_body cfg now current_phase message
          ai_response slots context branch_rules = .ok p →
        determine_next_phase cfg now current_phase message ai_response slots
          context branch_rules = p) := by
  intro cfg now current_phase message ai_response slots context branch_rules
  constructor <;> intro x h <;> simp [determine_next_phase, h]

/-- C3 witness: a rule whose condition fires but whose dict lacks
`to_phase` makes the body raise `KeyError`; the caught result is the
unchanged current phase. -/
theorem c3_determination_never_raises_witness :
    determine_next_phase_body cfg0 0 "P" "" "" [] [] [badRule] =
      .error "KeyError: to_phase" ∧
    determine_next_phase cfg0 0 "P" "" "" [] [] [badRule] = "P" :=
  ⟨rfl,
    (c3_determination_never_raises cfg0 0 "P" "" "" [] [] [badRule]).1
      "KeyError: to_phase" rfl⟩

/-- C4: evaluating a rule's condition never raises: an unknown condition
type evaluates to false, an exception inside the dispatched check is
caught and yields false, and a false rule lets the loop continue with the
remaining rules. -/
theorem c4_condition_evaluation_never_raises :
    ∀ (rule : Rule) (message ai_response : String)
      (slots : List (String × PVal)) (context : List Msg),
      (∀ ct, rule.condition_type = some ct →
        ct ∉ ["sufficient_info", "analysis_complete", "client_interest",
              "message_count", "time_elapsed", "keyword_match",
              "slot_filled"] →
        evaluate_condition rule message ai_response slots context = false) ∧
      (∀ e, evaluate_condition_body rule message ai_response slots context =
          .error e →
        evaluate_condition rule message ai_response slots context = false) ∧
      (∀ cfg now current_phase (rest : List Rule),
        evaluate_condition rule message ai_response slots context = false →
        rule_loop cfg now current_phase message ai_response slots context
          (rule :: rest) =
        rule_loop cfg now current_phase message ai_response slots context
          rest) := by
  intro rule message ai_response slots context
  refine ⟨?_, ?_, ?_⟩
  · intro ct hct hmem
    simp only [List.mem_cons, List.not_mem_nil, or_false, not_or] at hmem
    obtain ⟨h1, h2, h3, h4, h5, h6, h7⟩ := hmem
    simp [evaluate_condition, evaluate_condition_body, hct, h1, h2, h3, h4,
      h5, h6, h7]
  · intro e h
    simp [evaluate_condition, h]
  · intro cfg now current_phase rest h
    simp [rule_loop, h]

/-- C4 witness: a rule of the unknown type `"bogus"` evaluates to false
and the loop over `[bogusRule]` reduces to the loop over the empty
remainder. -/
theorem c4_condition_evaluation_never_raises_witness :
    evaluate_condition bogusRule "" "" [] [] = false ∧
    rule_loop cfg0 0 "P" "" "" [] [] [bogusRule] =
      rule_loop cfg0 0 "P" "" "" [] [] [] :=
  ⟨(c4_condition_evaluation_never_raises bogusRule "" "" [] []).1 "bogus"
      rfl (by decide),
    (c4_condition_evaluation_never_raises bogusRule "" "" [] []).2.2 cfg0 0
      "P" []
      ((c4_condition_evaluation_never_raises bogusRule "" "" [] []).1
        "bogus" rfl (by decide))⟩

/-! ## Claims about the slot extractor and the chunker -/

/-- C6: on a message containing two ISO-like dates, `extract_slots`
captures only the first one in the `dates` list slot — the source calls
`DATE_RE.search` once per (fresh) dict, so the accumulating-list intent of
the spec is not met. -/
theorem c6_only_first_date_captured :
    extract_slots ("meet 2024-1-2 or 2024-3-4") =
      [("dates", PVal.list ["2024-1-2"])] := by decide

/-- C7 counterexample: `chunk_document("A. B. C.", 3, 0)` yields the two
chunks `"A B"` and `"C"`, not three single-sentence chunks. -/
theorem c7_counterexample :
    chunk_document 3 0 ("A. B. C.") = ["A B", "C"] ∧
    (chunk_document 3 0 ("A. B. C.")).length ≠ 3 := by decide

/-- C7 (amended): with `chunk_size=3` the first two one-character
sentences share a chunk (`"A B"`, length 3, fits) and only `"C"`
overflows into its own chunk, so exactly two chunks result and the loop
terminates; the three-single-sentence behaviour (every sentence exceeding
the limit alone yet emitted as its own chunk) occurs at `chunk_size=1`. -/
theorem c7_chunking_small_sizes :
    chunk_document 3 0 ("A. B. C.") = ["A B", "C"] ∧
    chunk_document 1 0 ("A. B. C.") = ["A", "B", "C"] := by decide

/-! ## Helper lemmas: the search loop and the index build -/

/-- A successful Python indexing hit an existing position. -/
theorem pyGet_some_inbounds {α : Type} (l : List α) (i : Int) (x : α)
    (h : pyGet l i = some x) :
    ∃ j : Nat, j < l.length ∧ l.get? j = some x := by
  unfold pyGet at h
  split_ifs at h
  · obtain ⟨hj, _⟩ := List.get?_eq_some.mp h
    exact ⟨i.toNat, hj, h⟩
  · obtain ⟨hj, _⟩ := List.get?_eq_some.mp h
    exact ⟨((l.length : Int) + i).toNat, hj, h⟩

/-- Python indexing at a non-negative in-range position succeeds. -/
theorem pyGet_nonneg_some {α : Type} (l : List α) (i : Int) (h0 : 0 ≤ i)
    (hlt : i < (l.length : Int)) : ∃ x, pyGet l i = some x := by
  have hn : i.toNat < l.length := by omega
  refine ⟨l.get ⟨i.toNat, hn⟩, ?_⟩
  unfold pyGet
  rw [if_pos h0, if_pos hlt, List.get?_eq_get hn]

/-- What a successful run of the result loop produces: the accumulator
extended by entries whose scores pass the threshold, drawn in order from
the hit list, each looked up at an existing chunk position. -/
theorem searchLoop_spec (documents : List ProcDoc) (threshold : ℚ) :
    ∀ (hits : List (ℚ × Int)) (acc results : List (ProcDoc × ℚ)),
      search_loop documents threshold hits acc = .ok results →
      ∃ extra, results = acc ++ extra ∧
        List.Sublist (extra.map Prod.snd) (hits.map Prod.fst) ∧
        ∀ x ∈ extra, threshold ≤ x.2 ∧
          ∃ j : Nat, j < documents.length ∧
            documents.get? j = some x.1 := by
  intro hits
  induction hits with
  | nil =>
    intro acc results h
    simp only [search_loop] at h
    cases h
    exact ⟨[], by simp, by simp, by simp⟩
  | cons hd rest ih =>
    intro acc results h
    obtain ⟨sc, idx⟩ := hd
    by_cases hc : threshold ≤ sc ∧ idx < (documents.length : Int)
    · rw [search_loop, if_pos hc] at h
      cases hg : pyGet documents idx with
      | none => rw [hg] at h; cases h
      | some doc =>
        rw [hg] at h
        obtain ⟨extra, hre, hsub, hprops⟩ := ih (acc ++ [(doc, sc)]) results h
        refine ⟨(doc, sc) :: extra, by simpa using hre, ?_, ?_⟩
        · simpa using List.Sublist.cons₂ sc hsub
        · intro x hx
          rcases List.mem_cons.mp hx with hx | hx
          · subst hx
            exact ⟨hc.1, pyGet_some_inbounds documents idx doc hg⟩
          · exact hprops x hx
    · rw [search_loop, if_neg hc] at h
      obtain ⟨extra, hre, hsub, hprops⟩ := ih acc results h
      exact ⟨extra, hre, List.Sublist.cons sc hsub, hprops⟩

/-- With only non-negative hit indices (actual vector positions), the
result loop cannot raise. -/
theorem searchLoop_total (documents : List ProcDoc) (threshold : ℚ) :
    ∀ (hits : List (ℚ × Int)) (acc : List (ProcDoc × ℚ)),
      (∀ h ∈ hits, 0 ≤ h.2) →
      ∃ results, search_loop documents threshold hits acc = .ok results := by
  intro hits
  induction hits with
  | nil => intro acc _; exact ⟨acc, rfl⟩
  | cons hd rest ih =>
    intro acc hnn
    obtain ⟨sc, idx⟩ := hd
    have htail : ∀ h ∈ rest, 0 ≤ h.2 :=
      fun h hh => hnn h (List.mem_cons_of_mem _ hh)
    by_cases hc : threshold ≤ sc ∧ idx < (documents.length : Int)
    · have h0 : 0 ≤ idx := hnn (sc, idx) (List.mem_cons_self _ _)
      obtain ⟨x, hx⟩ := pyGet_nonneg_some documents idx h0 hc.2
      rw [search_loop, if_pos hc, hx]
      exact ih (acc ++ [(x, sc)]) htail
    · rw [search_loop, if_neg hc]
      exact ih acc htail

/-- Hits whose index is not below the chunk-list length contribute
nothing: filtering them away leaves the loop's behaviour unchanged. -/
theorem searchLoop_filter (documents : List ProcDoc) (threshold : ℚ) :
    ∀ (hits : List (ℚ × Int)) (acc : List (ProcDoc × ℚ)),
      search_loop documents threshold hits acc =
      search_loop documents threshold
        (hits.filter (fun h => decide (h.2 < (documents.length : Int))))
        acc := by
  intro hits
  induction hits with
  | nil => intro acc; rfl
  | cons hd rest ih =>
    intro acc
    obtain ⟨sc, idx⟩ := hd
    by_cases hlt : idx < (documents.length : Int)
    · have hf : ((sc, idx) :: rest).filter
          (fun h => decide (h.2 < (documents.length : Int))) =
          (sc, idx) :: rest.filter
            (fun h => decide (h.2 < (documents.length : Int))) := by
        simp [hlt]
      rw [hf]
      by_cases hc : threshold ≤ sc ∧ idx < (documents.length : Int)
      · cases hg : pyGet documents idx with
        | some doc =>
          rw [search_loop, if_pos hc, hg, search_loop, if_pos hc, hg]
          exact ih _
        | none =>
          rw [search_loop, if_pos hc, hg, search_loop, if_pos hc, hg]
      · rw [search_loop, if_neg hc, search_loop, if_neg hc]
        exact ih acc
    · have hc : ¬(threshold ≤ sc ∧ idx < (documents.length : Int)) :=
        fun h => hlt h.2
      have hf : ((sc, idx) :: rest).filter
          (fun h => decide (h.2 < (documents.length : Int))) =
          rest.filter (fun h => decide (h.2 < (documents.length : Int))) := by
        simp [hlt]
      rw [hf, search_loop, if_neg hc]
      exact ih acc

/-- The two parallel accumulators of the chunk loop stay in lockstep:
the embedding list is the image of the processed-chunk list under
`encode` of the chunk text. -/
theorem chunkAccum_parallel (encode : String → List ℚ) (doc : Doc) :
    ∀ (l : List (Nat × String)) (acc : List ProcDoc × List (List ℚ)),
      acc.2 = acc.1.map (fun pd => encode pd.content) →
      (l.foldl (chunkAccum encode doc) acc).2 =
        (l.foldl (chunkAccum encode doc) acc).1.map
          (fun pd => encode pd.content) := by
  intro l
  induction l with
  | nil => intro acc h; simpa using h
  | cons ic l' ih =>
    intro acc h
    simp only [List.foldl_cons]
    apply ih
    simp [chunkAccum, h, mkProcDoc]

/-- The lockstep invariant extends over the document loop. -/
theorem docAccum_parallel (encode : String → List ℚ)
    (chunk_size chunk_overlap : Int) :
    ∀ (docs : List Doc) (acc : List ProcDoc × List (List ℚ)),
      acc.2 = acc.1.map (fun pd => encode pd.content) →
      (docs.foldl (docAccum encode chunk_size chunk_overlap) acc).2 =
        (docs.foldl (docAccum encode chunk_size chunk_overlap) acc).1.map
          (fun pd => encode pd.content) := by
  intro docs
  induction docs with
  | nil => intro acc h; simpa using h
  | cons d docs' ih =>
    intro acc h
    simp only [List.foldl_cons]
    exact ih _ (chunkAccum_parallel encode d _ acc h)

/-! ## Claims about the retrieval pipeline -/

/-- C5: `search_documents` returns at most `top_k` results (faiss returns
at most `top_k` hits), every returned `similarity_score` reaches the
threshold, the returned scores are drawn in order from the hit ranking,
and a descending hit ranking yields descending result scores; the filter
may shrink the result below `top_k`, to zero included. -/
theorem c5_search_topk_threshold_order :
    ∀ (st : RagState) (hits : List (ℚ × Int)) (threshold : ℚ)
      (top_k : Nat),
      hits.length ≤ top_k →
      (search_documents st hits threshold).length ≤ top_k ∧
      (∀ x ∈ search_documents st hits threshold, threshold ≤ x.2) ∧
      List.Sublist ((search_documents st hits threshold).map Prod.snd)
        (hits.map Prod.fst) ∧
      (hits.Pairwise (fun a b => b.1 ≤ a.1) →
        (search_documents st hits threshold).Pairwise
          (fun a b => b.2 ≤ a.2)) := by
  intro st hits threshold top_k hk
  cases hguard : (st.faiss_index.isNone || st.documents.isEmpty) with
  | true =>
    have hsd : search_documents st hits threshold = [] := by
      simp [search_documents, hguard]
    rw [hsd]
    exact ⟨Nat.zero_le _, by simp, by simp, fun _ => by simp⟩
  | false =>
    cases hloop : search_loop st.documents threshold hits [] with
    | error e =>
      have hsd : search_documents st hits threshold = [] := by
        simp [search_documents, hguard, hloop]
      rw [hsd]
      exact ⟨Nat.zero_le _, by simp, by simp, fun _ => by simp⟩
    | ok results =>
      have hsd : search_documents st hits threshold = results := by
        simp [search_documents, hguard, hloop]
      obtain ⟨extra, hre, hsub, hprops⟩ :=
        searchLoop_spec st.documents threshold hits [] results hloop
      have hres : results = extra := by simpa using hre
      subst hres
      rw [hsd]
      refine ⟨?_, ?_, hsub, ?_⟩
      · have := List.Sublist.length_le hsub
        simpa using le_trans (by simpa using this) hk
      · intro x hx; exact (hprops x hx).1
      · intro hp
        have h1 : (hits.map Prod.fst).Pairwise (fun a b => b ≤ a) :=
          List.pairwise_map.mpr hp
        have h2 := List.Pairwise.sublist hsub h1
        exact List.pairwise_map.mp h2

/-- C5 witness: a one-hit state within the bound. -/
theorem c5_search_topk_threshold_order_witness :
    ([((1 : ℚ), (0 : Int))].length ≤ 1) ∧
    ((search_documents st1 [((1 : ℚ), (0 : Int))] 0).length ≤ 1 ∧
      (∀ x ∈ search_documents st1 [((1 : ℚ), (0 : Int))] 0, (0 : ℚ) ≤ x.2) ∧
      List.Sublist
        ((search_documents st1 [((1 : ℚ), (0 : Int))] 0).map Prod.snd)
        ([((1 : ℚ), (0 : Int))].map Prod.fst) ∧
      (([((1 : ℚ), (0 : Int))] : List (ℚ × Int)).Pairwise
          (fun a b => b.1 ≤ a.1) →
        (search_documents st1 [((1 : ℚ), (0 : Int))] 0).Pairwise
          (fun a b => b.2 ≤ a.2))) :=
  ⟨by decide, c5_search_topk_threshold_order st1 [((1 : ℚ), (0 : Int))] 0 1
    (by decide)⟩

/-- C8 (amended): every index build or rebuild (`_create_new_index`, the
path behind `add_document` and `update_knowledge_base`) leaves the vector
index and the parallel chunk list with equal length, position `i` of the
index holding exactly the normalised embedding of the chunk text at
position `i`; a load of persisted files, however, installs the stored
pair as-is and can leave them diverged when the files disagree. -/
theorem c8_rebuild_keeps_arrays_parallel :
    ∀ (encode : String → List ℚ) (normalizeRow : List ℚ → List ℚ)
      (embDim : Nat) (chunk_size chunk_overlap : Int) (docs : List Doc),
      ∃ fi, (create_new_index encode normalizeRow embDim chunk_size
          chunk_overlap docs).faiss_index = some fi ∧
        fi.vecs = (create_new_index encode normalizeRow embDim chunk_size
            chunk_overlap docs).documents.map
          (fun pd => normalizeRow (encode pd.content)) ∧
        fi.vecs.length = (create_new_index encode normalizeRow embDim
            chunk_size chunk_overlap docs).documents.length := by
  intro encode normalizeRow embDim chunk_size chunk_overlap docs
  cases hempty : docs.isEmpty with
  | true =>
    refine ⟨⟨embDim, []⟩, ?_, ?_, ?_⟩ <;>
      simp [create_new_index, hempty]
  | false =>
    have hpar := docAccum_parallel encode chunk_size chunk_overlap docs
      ([], []) (by simp)
    cases hvec : (docs.foldl (docAccum encode chunk_size chunk_overlap)
        ([], [])).2.isEmpty with
    | true =>
      refine ⟨⟨embDim, []⟩, ?_, ?_, ?_⟩ <;>
        simp [create_new_index, hempty, hvec]
    | false =>
      have hcr : create_new_index encode normalizeRow embDim chunk_size
          chunk_overlap docs =
          { faiss_index := some
              ⟨(((docs.foldl (docAccum encode chunk_size chunk_overlap)
                  ([], [])).2.map normalizeRow).headD []).length,
                (docs.foldl (docAccum encode chunk_size chunk_overlap)
                  ([], [])).2.map normalizeRow⟩,
            documents := (docs.foldl (docAccum encode chunk_size
              chunk_overlap) ([], [])).1 } := by
        simp [create_new_index, hempty, hvec]
      rw [hcr]
      refine ⟨_, rfl, ?_, ?_⟩
      · show (docs.foldl (docAccum encode chunk_size chunk_overlap)
            ([], [])).2.map normalizeRow =
          (docs.foldl (docAccum encode chunk_size chunk_overlap)
            ([], [])).1.map (fun pd => normalizeRow (encode pd.content))
        rw [hpar, List.map_map]
        rfl
      · show ((docs.foldl (docAccum encode chunk_size chunk_overlap)
            ([], [])).2.map normalizeRow).length =
          (docs.foldl (docAccum encode chunk_size chunk_overlap)
            ([], [])).1.length
        rw [hpar]
        simp

/-- C8 counterexample: loading persisted files that disagree (two stored
vectors, one stored chunk) is an operation that leaves the index and the
chunk list diverged in length, refuting the claim's "no operation of the
system leaves them diverged". -/
theorem c8_counterexample :
    (load_or_create_index (fun _ => []) (fun v => v) 3 500 50
        (some (⟨3, [[1], [1]]⟩, [pd0])) []).faiss_index =
      some ⟨3, [[1], [1]]⟩ ∧
    (load_or_create_index (fun _ => []) (fun v => v) 3 500 50
        (some (⟨3, [[1], [1]]⟩, [pd0])) []).documents = [pd0] ∧
    ([[(1 : ℚ)], [1]].length ≠ ([pd0] : List ProcDoc).length) := by
  refine ⟨rfl, rfl, by decide⟩

/-- C9: rebuilding from zero source documents yields a valid empty index
of the model's embedding dimensionality with zero vectors and zero
chunks, and every subsequent search on that state returns the empty list
(no exception is modelled: `search_documents` is total). -/
theorem c9_empty_rebuild_valid :
    ∀ (encode : String → List ℚ) (normalizeRow : List ℚ → List ℚ)
      (embDim : Nat) (chunk_size chunk_overlap : Int),
      (create_new_index encode normalizeRow embDim chunk_size chunk_overlap
          []).faiss_index = some ⟨embDim, []⟩ ∧
      (create_new_index encode normalizeRow embDim chunk_size chunk_overlap
          []).documents = [] ∧
      ∀ (hits : List (ℚ × Int)) (threshold : ℚ),
        search_documents
          (create_new_index encode normalizeRow embDim chunk_size
            chunk_overlap []) hits threshold = [] := by
  intro encode normalizeRow embDim chunk_size chunk_overlap
  exact ⟨rfl, rfl, fun hits threshold => rfl⟩

/-- C10: for hits at actual vector positions (non-negative indices) the
search loop never raises; every returned result is looked up at an
existing chunk position (the `idx < len(documents)` guard protects a
loaded index with more vectors than chunks); and hits whose index is not
below the chunk-list length are silently dropped — filtering them away
does not change the result. -/
theorem c10_search_in_bounds :
    ∀ (st : RagState) (hits : List (ℚ × Int)) (threshold : ℚ),
      (∀ h ∈ hits, 0 ≤ h.2) →
      (∃ results,
        search_loop st.documents threshold hits [] = .ok results) ∧
      (∀ x ∈ search_documents st hits threshold,
        ∃ j : Nat, j < st.documents.length ∧
          st.documents.get? j = some x.1) ∧
      search_documents st hits threshold =
        search_documents st
          (hits.filter
            (fun h => decide (h.2 < (st.documents.length : Int))))
          threshold := by
  intro st hits threshold hnn
  refine ⟨searchLoop_total st.documents threshold hits [] hnn, ?_, ?_⟩
  · intro x hx
    cases hguard : (st.faiss_index.isNone || st.documents.isEmpty) with
    | true =>
      rw [show search_documents st hits threshold = [] by
        simp [search_documents, hguard]] at hx
      cases hx
    | false =>
      cases hloop : search_loop st.documents threshold hits [] with
      | error e =>
        rw [show search_documents st hits threshold = [] by
          simp [search_documents, hguard, hloop]] at hx
        cases hx
      | ok results =>
        rw [show search_documents st hits threshold = results by
          simp [search_documents, hguard, hloop]] at hx
        obtain ⟨extra, hre, _, hprops⟩ :=
          searchLoop_spec st.documents threshold hits [] results hloop
        have hres : results = extra := by simpa using hre
        subst hres
        exact (hprops x hx).2
  · unfold search_documents
    rw [searchLoop_filter st.documents threshold hits []]

/-- C10 witness: one in-range hit kept, one over-length hit dropped. -/
theorem c10_search_in_bounds_witness :
    (∀ h ∈ [((1 : ℚ), (0 : Int)), (1, 5)], 0 ≤ h.2) ∧
    ((∃ results,
        search_loop st1.documents 0 [((1 : ℚ), (0 : Int)), (1, 5)] [] =
          .ok results) ∧
      (∀ x ∈ search_documents st1 [((1 : ℚ), (0 : Int)), (1, 5)] 0,
        ∃ j : Nat, j < st1.documents.length ∧
          st1.documents.get? j = some x.1) ∧
      search_documents st1 [((1 : ℚ), (0 : Int)), (1, 5)] 0 =
        search_documents st1
          ([((1 : ℚ), (0 : Int)), (1, 5)].filter
            (fun h => decide (h.2 < (st1.documents.length : Int))))
          0) :=
  ⟨by decide,
    c10_search_in_bounds st1 [((1 : ℚ), (0 : Int)), (1, 5)] 0 (by decide)⟩
